import Mathlib

/-!
Shallow embedding of `src/main.rs` of the repository
`polymarket-vps-latency-test-rs`, a latency test harness that
authenticates against the Polymarket CLOB, warms per-instrument metadata
caches, and then builds, signs and posts `iterations` limit orders
sequentially while recording per-stage latencies.

The embedding models:
  * the command-line `Args` record (fields exactly as in the source);
  * the side / price / token-id parsing performed before the loop;
  * the statistics block (truncating average, iterator min/max,
    warm-up skipping) and the bottleneck classification;
  * the observable control flow of `main` after signer construction,
    as a trace of events (network calls, per-order build/sign/post,
    inter-order sleeps) driven by an `Oracle` that fixes the outcome of
    each fallible remote operation.
-/

namespace PolymarketLatency

/-- Order side, the SDK `Side` enum as used by `main.rs`. -/
inductive Side
  | Buy
  | Sell
deriving DecidableEq, Repr

/-- The bottleneck verdict printed by the analysis block of `main.rs`
(lines 172–181). -/
inductive Bottleneck
  | network
  | crypto
  | balanced
deriving DecidableEq, Repr

/-- The command-line arguments of the program, mirroring the Rust
`Args` struct field for field.  `price` and `size` are `f64` in the
source; every `f64` value is an exact rational number, so they are
carried here as `ℚ` (the exact value of the parsed argument). -/
structure Args where
  token_id : String
  price : ℚ
  size : ℚ
  side : String
  iterations : Nat
deriving Repr

/-- Character-wise uppercasing, modelling Rust `str::to_uppercase` on
the ASCII side strings the program compares against. -/
def toUppercase (s : String) : String :=
  String.mk (s.data.map Char.toUpper)

/-- Side selection of `main.rs` lines 60–64: `Sell` exactly when the
uppercased argument equals "SELL", `Buy` in every other case; the
function is total, no string is rejected. -/
def parseSide (s : String) : Side :=
  if toUppercase s = "SELL" then Side.Sell else Side.Buy

/-- Rounding of a rational to the nearest integer with ties to even,
as performed by Rust float formatting with an explicit precision
(`format!` rounds the exact value of the float to the requested number
of fractional digits, ties to even). -/
def rustRound (x : ℚ) : ℤ :=
  let f := ⌊x⌋
  let r := x - f
  if r < 1/2 then f
  else if 1/2 < r then f + 1
  else if f % 2 = 0 then f else f + 1

/-- The exact value carried by the decimal string produced by
formatting `x` with precision 2: `x` rounded to two fractional
digits. -/
def formatTwoDecimals (x : ℚ) : ℚ :=
  (rustRound (x * 100) : ℚ) / 100

/-- The price put into every built order, `main.rs` line 66: the
`f64` price argument is formatted with precision 2 and the resulting
string is parsed by `Decimal::from_str`.  `Decimal` parsing of the
formatted string is exact, so the built price is the argument value
rounded to two decimal places. -/
def builtPrice (price : ℚ) : ℚ :=
  formatTwoDecimals price

/-- Decimal digit value of a character, `none` for a non-digit. -/
def digitVal (c : Char) : Option Nat :=
  if '0' ≤ c ∧ c ≤ '9' then some (c.toNat - '0'.toNat) else none

/-- Base-10 parse of a character list; fails on the empty list and on
any non-digit character. -/
def parseDecimal (cs : List Char) : Option Nat :=
  if cs.isEmpty then none
  else cs.foldl (fun acc c => acc.bind (fun a => (digitVal c).map (fun d => a * 10 + d))) (some 0)

/-- Token-id parsing of `main.rs` line 68,
`U256::from_str_radix(&args.token_id, 10)`: a base-10 parse into a
256-bit unsigned integer, failing on malformed strings and on values
that do not fit in 256 bits. -/
def parseTokenId (s : String) : Option Nat :=
  match parseDecimal s.data with
  | none => none
  | some n => if n < 2 ^ 256 then some n else none

/-- Warm-up exclusion count of `main.rs` line 142:
`if args.iterations > 1 { 1 } else { 0 }`. -/
def skipFirst (iterations : Nat) : Nat :=
  if iterations > 1 then 1 else 0

/-- Guard of the statistics block, `main.rs` line 148:
`args.iterations > skip_first`. -/
def statsShown (iterations : Nat) : Bool :=
  iterations > skipFirst iterations

/-- The steady-state sample set of `main.rs` line 149: the recorded
samples with the first `skip` dropped. -/
def steadyState (skip : Nat) (samples : List Nat) : List Nat :=
  samples.drop skip

/-- Truncating integer average of `main.rs` line 150:
`iter().sum() / len()`. -/
def avgOf (l : List Nat) : Nat :=
  l.sum / l.length

/-- `iter().min()` over a non-empty list (0 for the empty list, which
the statistics guard excludes). -/
def minOf : List Nat → Nat
  | [] => 0
  | x :: xs => xs.foldl Nat.min x

/-- `iter().max()` over a non-empty list (0 for the empty list, which
the statistics guard excludes). -/
def maxOf : List Nat → Nat
  | [] => 0
  | x :: xs => xs.foldl Nat.max x

/-- Bottleneck analysis of `main.rs` lines 173–181, on the per-stage
averages: network-bound when `avg_post > avg_sign * 2`, otherwise
crypto-bound when `avg_sign > avg_post`, otherwise balanced. -/
def classifyBottleneck (avg_post avg_sign : Nat) : Bottleneck :=
  if avg_post > avg_sign * 2 then Bottleneck.network
  else if avg_sign > avg_post then Bottleneck.crypto
  else Bottleneck.balanced

/-- Observable events of a run of `main` after signer construction.
`authenticate`, the three warm-up fetches and `orderPosted` are network
round trips; `orderBuilt` and `orderSigned` are local; `sleep` is the
inter-order delay. -/
inductive Event
  | authenticate
  | tickSizeFetch
  | negRiskFetch
  | feeRateFetch
  | orderBuilt (i : Nat)
  | orderSigned (i : Nat)
  | orderPosted (i : Nat)
  | sleep (ms : Nat)
deriving DecidableEq, Repr

/-- Whether an event is a network round trip. -/
def Event.isNetwork : Event → Bool
  | Event.authenticate => true
  | Event.tickSizeFetch => true
  | Event.negRiskFetch => true
  | Event.feeRateFetch => true
  | Event.orderPosted _ => true
  | _ => false

/-- The error taxonomy of a run, following the fallible operations of
`main.rs`: the `?` on `authenticate` (line 56), on
`U256::from_str_radix` (line 68), on the three warm-up results
(lines 77–79), and on build / sign / post inside the loop
(lines 107, 112, 117). -/
inductive Err
  | credentialDerivation
  | tokenParse
  | metadataFetch
  | orderBuild (i : Nat)
  | signing (i : Nat)
  | transport (i : Nat)
deriving DecidableEq, Repr

/-- Outcomes of the remote/fallible operations of one run: whether
authentication, each warm-up lookup, and each iteration's build, sign
and post succeed.  `main.rs` treats all of these as opaque awaited
calls; the oracle fixes their results so the control flow is a pure
function. -/
structure Oracle where
  authOk : Bool
  tickOk : Bool
  negOk : Bool
  feeOk : Bool
  buildOk : Nat → Bool
  signOk : Nat → Bool
  postOk : Nat → Bool

/-- An oracle on which every operation succeeds. -/
def allOk : Oracle :=
  { authOk := true, tickOk := true, negOk := true, feeOk := true
    buildOk := fun _ => true, signOk := fun _ => true, postOk := fun _ => true }

/-- One iteration of the submission loop, `main.rs` lines 92–139:
build (`?`), sign (`?`), post (`?`), then — only when the iteration
succeeded and is not the last — a fixed `sleep(1000ms)`.  Returns the
events of the iteration and its result; any stage failing makes the
`?` operator propagate the error. -/
def runIter (o : Oracle) (n i : Nat) : List Event × Except Err Unit :=
  if o.buildOk i = false then ([], Except.error (Err.orderBuild i))
  else if o.signOk i = false then ([Event.orderBuilt i], Except.error (Err.signing i))
  else if o.postOk i = false then
    ([Event.orderBuilt i, Event.orderSigned i], Except.error (Err.transport i))
  else
    ([Event.orderBuilt i, Event.orderSigned i, Event.orderPosted i] ++
      (if i < n then [Event.sleep 1000] else []), Except.ok ())

/-- The submission loop starting at iteration index `i` with `fuel`
iterations left (`for i in 1..=n` is `runFrom o n 1 n`): strictly
sequential, one iteration fully finished before the next begins, and
an error from any iteration stops the loop at once (the `?` operator
returns from `main`). -/
def runFrom (o : Oracle) (n : Nat) : Nat → Nat → List Event × Except Err Unit
  | _, 0 => ([], Except.ok ())
  | i, fuel + 1 =>
    match runIter o n i with
    | (evs, Except.error e) => (evs, Except.error e)
    | (evs, Except.ok _) =>
      let tail := runFrom o n (i + 1) fuel
      (evs ++ tail.1, tail.2)

/-- The iteration indices `1..=n` of the `for` loop on line 92. -/
def loopIndices (n : Nat) : List Nat :=
  List.range' 1 n

/-- The run of `main` after signer construction, as (trace, result).
Order of operations exactly as in `main.rs`: `authenticate` (network,
line 56, `?`), then argument pre-parsing ending in the token-id parse
(line 68, `?`; side, price and size conversions before it are total on
finite floats), then the warm-up `tokio::join!` issuing all three
fetches and awaiting them jointly (lines 71–75) followed by `?` on each
result (lines 77–79), then the submission loop, then `Ok(())`. -/
def runMain (a : Args) (o : Oracle) : List Event × Except Err Unit :=
  if o.authOk = false then ([Event.authenticate], Except.error Err.credentialDerivation)
  else
    match parseTokenId a.token_id with
    | none => ([Event.authenticate], Except.error Err.tokenParse)
    | some _ =>
      let warm := [Event.tickSizeFetch, Event.negRiskFetch, Event.feeRateFetch]
      if o.tickOk = false ∨ o.negOk = false ∨ o.feeOk = false then
        (Event.authenticate :: warm, Except.error Err.metadataFetch)
      else
        let loop := runFrom o a.iterations 1 a.iterations
        (Event.authenticate :: warm ++ loop.1, loop.2)

/-- The full event list of the loop body when every operation
succeeds: for each `i` in `1..=n`, build, sign, post, and a 1000 ms
sleep exactly when `i < n`. -/
def seqTrace (n : Nat) : List Event :=
  (loopIndices n).flatMap (fun i =>
    [Event.orderBuilt i, Event.orderSigned i, Event.orderPosted i] ++
      (if i < n then [Event.sleep 1000] else []))

/-- Combined success of one iteration: build, sign and post all
succeed. -/
def iterOk (o : Oracle) (i : Nat) : Bool :=
  o.buildOk i && o.signOk i && o.postOk i

/-- The sleep events of a trace, in order. -/
def sleepsOf (t : List Event) : List Event :=
  t.filter (fun e => match e with | Event.sleep _ => true | _ => false)

/-- The side used for every order of a run: parsed once before the
loop (`main.rs` lines 60–64) and reused unchanged for all
iterations. -/
def builtSide (a : Args) : Side :=
  parseSide a.side

/-- An oracle identical to `allOk` except that posting the first order
fails with a transport error. -/
def failPost1 : Oracle :=
  { allOk with postOk := fun i => i != 1 }

/-- An oracle identical to `allOk` except that the tick-size warm-up
lookup fails. -/
def tickFail : Oracle :=
  { allOk with tickOk := false }

instance {ε α : Type} [DecidableEq ε] [DecidableEq α] : DecidableEq (Except ε α) := fun x y =>
  match x, y with
  | Except.error e, Except.error f =>
    if h : e = f then isTrue (congrArg Except.error h)
    else isFalse (fun hc => h (Except.error.inj hc))
  | Except.ok a, Except.ok b =>
    if h : a = b then isTrue (congrArg Except.ok h)
    else isFalse (fun hc => h (Except.ok.inj hc))
  | Except.error _, Except.ok _ => isFalse (fun hc => Except.noConfusion hc)
  | Except.ok _, Except.error _ => isFalse (fun hc => Except.noConfusion hc)

/-! ## Helper lemmas -/

theorem foldl_min_le_init (xs : List Nat) (a : Nat) : xs.foldl Nat.min a ≤ a := by
  induction xs generalizing a with
  | nil => simp
  | cons x xs ih =>
    simpa using le_trans (ih (Nat.min a x)) (Nat.min_le_left a x)

theorem foldl_min_le_mem {x : Nat} {xs : List Nat} (a : Nat) (hx : x ∈ xs) :
    xs.foldl Nat.min a ≤ x := by
  induction xs generalizing a with
  | nil => cases hx
  | cons y ys ih =>
    rcases List.mem_cons.mp hx with h | h
    · subst h
      simpa using le_trans (foldl_min_le_init ys (Nat.min a x)) (Nat.min_le_right a x)
    · simpa using ih (Nat.min a y) h

theorem le_foldl_max_init (xs : List Nat) (a : Nat) : a ≤ xs.foldl Nat.max a := by
  induction xs generalizing a with
  | nil => simp
  | cons x xs ih =>
    simpa using le_trans (Nat.le_max_left a x) (ih (Nat.max a x))

theorem mem_le_foldl_max {x : Nat} {xs : List Nat} (a : Nat) (hx : x ∈ xs) :
    x ≤ xs.foldl Nat.max a := by
  induction xs generalizing a with
  | nil => cases hx
  | cons y ys ih =>
    rcases List.mem_cons.mp hx with h | h
    · subst h
      simpa using le_trans (Nat.le_max_right a x) (le_foldl_max_init ys (Nat.max a x))
    · simpa using ih (Nat.max a y) h

theorem minOf_le_mem {x : Nat} {l : List Nat} (hx : x ∈ l) : minOf l ≤ x := by
  cases l with
  | nil => cases hx
  | cons y ys =>
    rcases List.mem_cons.mp hx with h | h
    · subst h
      exact foldl_min_le_init ys x
    · exact foldl_min_le_mem y h

theorem mem_le_maxOf {x : Nat} {l : List Nat} (hx : x ∈ l) : x ≤ maxOf l := by
  cases l with
  | nil => cases hx
  | cons y ys =>
    rcases List.mem_cons.mp hx with h | h
    · subst h
      exact le_foldl_max_init ys x
    · exact mem_le_foldl_max y h

theorem length_mul_le_sum (l : List Nat) (m : Nat) (h : ∀ x ∈ l, m ≤ x) :
    l.length * m ≤ l.sum := by
  induction l with
  | nil => simp
  | cons x xs ih =>
    have hx := h x (List.mem_cons_self x xs)
    have hxs := ih (fun y hy => h y (List.mem_cons_of_mem x hy))
    simp only [List.length_cons, List.sum_cons, Nat.succ_mul]
    omega

theorem sum_le_length_mul (l : List Nat) (m : Nat) (h : ∀ x ∈ l, x ≤ m) :
    l.sum ≤ l.length * m := by
  induction l with
  | nil => simp
  | cons x xs ih =>
    have hx := h x (List.mem_cons_self x xs)
    have hxs := ih (fun y hy => h y (List.mem_cons_of_mem x hy))
    simp only [List.length_cons, List.sum_cons, Nat.succ_mul]
    omega

theorem min_le_avg_le_max {l : List Nat} (h : l ≠ []) :
    minOf l ≤ avgOf l ∧ avgOf l ≤ maxOf l := by
  have hlen : 0 < l.length := List.length_pos.mpr h
  constructor
  · rw [avgOf, Nat.le_div_iff_mul_le hlen, Nat.mul_comm]
    exact length_mul_le_sum l (minOf l) (fun x hx => minOf_le_mem hx)
  · have hsum : l.sum ≤ l.length * maxOf l :=
      sum_le_length_mul l (maxOf l) (fun x hx => mem_le_maxOf hx)
    calc avgOf l = l.sum / l.length := rfl
    _ ≤ (l.length * maxOf l) / l.length := Nat.div_le_div_right hsum
    _ = maxOf l := Nat.mul_div_cancel_left (maxOf l) hlen

theorem rustRound_intCast (n : ℤ) : rustRound (n : ℚ) = n := by
  unfold rustRound
  rw [Int.floor_intCast]
  norm_num

theorem runIter_of_ok (o : Oracle) (n i : Nat) (h : iterOk o i = true) :
    runIter o n i =
      ([Event.orderBuilt i, Event.orderSigned i, Event.orderPosted i] ++
        (if i < n then [Event.sleep 1000] else []), Except.ok ()) := by
  unfold iterOk at h
  simp only [Bool.and_eq_true] at h
  unfold runIter
  simp [h.1.1, h.1.2, h.2]

theorem runIter_snd_ok (o : Oracle) (n i : Nat) :
    (runIter o n i).2 = Except.ok () ↔ iterOk o i = true := by
  unfold runIter iterOk
  split_ifs with h1 h2 h3 <;> simp_all

theorem runIter_events (o : Oracle) (n i : Nat) (e : Event)
    (h : e ∈ (runIter o n i).1) :
    e = Event.orderBuilt i ∨ e = Event.orderSigned i ∨ e = Event.orderPosted i ∨
      e = Event.sleep 1000 := by
  unfold runIter at h
  split_ifs at h <;> simp_all <;> tauto

theorem runFrom_no_auth (o : Oracle) (n : Nat) :
    ∀ fuel i, Event.authenticate ∉ (runFrom o n i fuel).1 := by
  intro fuel
  induction fuel with
  | zero => intro i h; cases h
  | succ fuel ih =>
    intro i h
    unfold runFrom at h
    rcases hstep : runIter o n i with ⟨evs, r⟩
    rw [hstep] at h
    have hevs : Event.authenticate ∈ evs → False := by
      intro hmem
      have : Event.authenticate ∈ (runIter o n i).1 := by rw [hstep]; exact hmem
      rcases runIter_events o n i Event.authenticate this with h1 | h1 | h1 | h1 <;> cases h1
    cases r with
    | error e =>
      exact hevs h
    | ok u =>
      simp only [List.mem_append] at h
      rcases h with h | h
      · exact hevs h
      · exact ih (i + 1) h

theorem runFrom_ok_iff (o : Oracle) (n : Nat) :
    ∀ fuel i, (runFrom o n i fuel).2 = Except.ok () ↔
      ∀ m, i ≤ m → m < i + fuel → iterOk o m = true := by
  intro fuel
  induction fuel with
  | zero =>
    intro i
    constructor
    · intro _ m h1 h2
      omega
    · intro _
      rfl
  | succ fuel ih =>
    intro i
    unfold runFrom
    rcases hstep : runIter o n i with ⟨evs, r⟩
    cases r with
    | error e =>
      simp only
      constructor
      · intro h
        cases h
      · intro h
        have hi : iterOk o i = true := h i (Nat.le_refl i) (by omega)
        have hok := (runIter_snd_ok o n i).mpr hi
        rw [hstep] at hok
        cases hok
    | ok u =>
      cases u
      have hi : iterOk o i = true := by
        have hok : (runIter o n i).2 = Except.ok () := by rw [hstep]
        exact (runIter_snd_ok o n i).mp hok
      simp only
      constructor
      · intro h m h1 h2
        rcases Nat.eq_or_lt_of_le h1 with rfl | hlt
        · exact hi
        · exact (ih (i + 1)).mp h m hlt (by omega)
      · intro h
        exact (ih (i + 1)).mpr (fun m h1 h2 => h m (by omega) (by omega))

theorem runFrom_orderBuilt_mem (o : Oracle) (n : Nat) :
    ∀ fuel i j, Event.orderBuilt j ∈ (runFrom o n i fuel).1 →
      i ≤ j ∧ j < i + fuel ∧ ∀ m, i ≤ m → m < j → iterOk o m = true := by
  intro fuel
  induction fuel with
  | zero => intro i j h; cases h
  | succ fuel ih =>
    intro i j h
    unfold runFrom at h
    rcases hstep : runIter o n i with ⟨evs, r⟩
    rw [hstep] at h
    have hevs : Event.orderBuilt j ∈ evs → j = i := by
      intro hmem
      have hmem2 : Event.orderBuilt j ∈ (runIter o n i).1 := by rw [hstep]; exact hmem
      rcases runIter_events o n i (Event.orderBuilt j) hmem2 with h1 | h1 | h1 | h1 <;>
        first | exact Event.orderBuilt.inj h1 | cases h1
    cases r with
    | error e =>
      have hj : j = i := hevs h
      subst hj
      exact ⟨Nat.le_refl j, by omega, fun m h1 h2 => by omega⟩
    | ok u =>
      have hi : iterOk o i = true := by
        have hok : (runIter o n i).2 = Except.ok () := by rw [hstep]
        exact (runIter_snd_ok o n i).mp hok
      simp only [List.mem_append] at h
      rcases h with h | h
      · have hj : j = i := hevs h
        subst hj
        exact ⟨Nat.le_refl j, by omega, fun m h1 h2 => by omega⟩
      · obtain ⟨h1, h2, h3⟩ := ih (i + 1) j h
        refine ⟨by omega, by omega, fun m hm1 hm2 => ?_⟩
        rcases Nat.eq_or_lt_of_le hm1 with rfl | hlt
        · exact hi
        · exact h3 m hlt hm2

theorem runFrom_all_ok_trace (o : Oracle) (n : Nat) (h : ∀ m, iterOk o m = true) :
    ∀ fuel i, runFrom o n i fuel =
      ((List.range' i fuel).flatMap (fun idx =>
        [Event.orderBuilt idx, Event.orderSigned idx, Event.orderPosted idx] ++
          (if idx < n then [Event.sleep 1000] else [])), Except.ok ()) := by
  intro fuel
  induction fuel with
  | zero =>
    intro i
    rfl
  | succ fuel ih =>
    intro i
    unfold runFrom
    rw [runIter_of_ok o n i (h i)]
    simp only [ih (i + 1), List.range'_succ, List.flatMap_cons]

theorem runMain_ok_fst (a : Args) (o : Oracle) (t : Nat)
    (hauth : o.authOk = true) (htok : parseTokenId a.token_id = some t)
    (htick : o.tickOk = true) (hneg : o.negOk = true) (hfee : o.feeOk = true) :
    (runMain a o).1 =
      Event.authenticate :: Event.tickSizeFetch :: Event.negRiskFetch :: Event.feeRateFetch ::
        (runFrom o a.iterations 1 a.iterations).1 := by
  unfold runMain
  rw [htok]
  simp [hauth, htick, hneg, hfee]

theorem runMain_ok_snd (a : Args) (o : Oracle) (t : Nat)
    (hauth : o.authOk = true) (htok : parseTokenId a.token_id = some t)
    (htick : o.tickOk = true) (hneg : o.negOk = true) (hfee : o.feeOk = true) :
    (runMain a o).2 = (runFrom o a.iterations 1 a.iterations).2 := by
  unfold runMain
  rw [htok]
  simp [hauth, htick, hneg, hfee]

/-! ## Claims -/

/-- C3: the bottleneck classification over the post-loop averages is
network-bound exactly when the average post duration strictly exceeds
twice the average sign duration; otherwise crypto-bound exactly when
the average sign duration strictly exceeds the average post duration;
otherwise balanced. -/
theorem bottleneck_classification (p s : Nat) :
    (classifyBottleneck p s = Bottleneck.network ↔ p > s * 2) ∧
    (classifyBottleneck p s = Bottleneck.crypto ↔ ¬ p > s * 2 ∧ s > p) ∧
    (classifyBottleneck p s = Bottleneck.balanced ↔ ¬ p > s * 2 ∧ ¬ s > p) := by
  unfold classifyBottleneck
  split_ifs with h1 h2 <;> simp_all

/-- Witness for C3 at concrete averages: post 5 ms, sign 2 ms is
classified network-bound. -/
theorem bottleneck_classification_witness :
    classifyBottleneck 5 2 = Bottleneck.network :=
  (bottleneck_classification 5 2).1.mpr (by decide)

/-- C9: the side used for every iteration is `Sell` exactly when the
uppercased side argument equals "SELL", and `Buy` in every other case;
parsing is total, no side string is rejected. -/
theorem side_parse_total (a : Args) :
    (builtSide a = Side.Sell ↔ toUppercase a.side = "SELL") ∧
    (toUppercase a.side ≠ "SELL" → builtSide a = Side.Buy) := by
  unfold builtSide parseSide
  by_cases h : toUppercase a.side = "SELL" <;> simp [h]

/-- Witness for C9: "sElL" is parsed as `Sell`, "bogus" is not
rejected but parsed as `Buy`. -/
theorem side_parse_total_witness :
    builtSide ⟨"1", 1/2, 10, "sElL", 3⟩ = Side.Sell ∧
    builtSide ⟨"1", 1/2, 10, "bogus", 3⟩ = Side.Buy :=
  ⟨(side_parse_total ⟨"1", 1/2, 10, "sElL", 3⟩).1.mpr (by decide),
   (side_parse_total ⟨"1", 1/2, 10, "bogus", 3⟩).2 (by decide)⟩

/-- C4: over every non-empty steady-state sample set the reported
statistics satisfy `min ≤ average ≤ max` (average by truncating
integer division), and dropping the warm-up count never increases the
sample set size. -/
theorem stats_min_avg_max (skip : Nat) (samples : List Nat)
    (h : steadyState skip samples ≠ []) :
    minOf (steadyState skip samples) ≤ avgOf (steadyState skip samples) ∧
    avgOf (steadyState skip samples) ≤ maxOf (steadyState skip samples) ∧
    (steadyState skip samples).length ≤ samples.length := by
  obtain ⟨h1, h2⟩ := min_le_avg_le_max h
  refine ⟨h1, h2, ?_⟩
  unfold steadyState
  rw [List.length_drop]
  omega

/-- Witness for C4 on the samples `[5, 3, 7]` with one warm-up sample
excluded. -/
theorem stats_min_avg_max_witness :
    minOf (steadyState 1 [5, 3, 7]) ≤ avgOf (steadyState 1 [5, 3, 7]) ∧
    avgOf (steadyState 1 [5, 3, 7]) ≤ maxOf (steadyState 1 [5, 3, 7]) ∧
    (steadyState 1 [5, 3, 7]).length ≤ ([5, 3, 7] : List Nat).length :=
  stats_min_avg_max 1 [5, 3, 7] (by decide)

/-- C5 is refuted: the price travels through an `f64` and a
two-decimal formatting step, so a price of 0.125 (exactly
representable in binary floating point, and aligned to a 0.001 tick)
is transmitted as 0.12 — the value in the built order differs from the
value supplied by the user. -/
theorem price_two_decimal_drift :
    builtPrice (125/1000) ≠ (125/1000 : ℚ) := by
  unfold builtPrice formatTwoDecimals
  have h : ((125 : ℚ)/1000 * 100) = 25/2 := by norm_num
  rw [h]
  unfold rustRound
  norm_num

/-- C5 amended: the built price equals the supplied price exactly when
the supplied price is an integer multiple of 0.01; any other price is
changed by the two-decimal rounding before the order is built. -/
theorem built_price_exact_iff (q : ℚ) :
    builtPrice q = q ↔ ∃ n : ℤ, q = (n : ℚ) / 100 := by
  constructor
  · intro h
    unfold builtPrice formatTwoDecimals at h
    exact ⟨rustRound (q * 100), h.symm⟩
  · rintro ⟨n, rfl⟩
    unfold builtPrice formatTwoDecimals
    have h : ((n : ℚ)/100) * 100 = (n : ℚ) := by field_simp
    rw [h, rustRound_intCast]

/-- Witness for C5 amended: 0.50 is a multiple of 0.01 and survives
the pipeline unchanged. -/
theorem built_price_exact_iff_witness :
    builtPrice (1/2) = (1/2 : ℚ) :=
  (built_price_exact_iff (1/2)).mpr ⟨50, by norm_num⟩

/-- C1 is refuted: when posting order 1 fails (a transport error),
the run of three iterations stops at once with that error and order 2
is never built — the submission loop does not continue to the next
iteration. -/
theorem per_order_error_continues_counterexample :
    (runMain ⟨"1", 1/2, 10, "BUY", 3⟩ failPost1).2 = Except.error (Err.transport 1) ∧
    Event.orderBuilt 2 ∉ (runMain ⟨"1", 1/2, 10, "BUY", 3⟩ failPost1).1 := by
  decide

/-- C1 amended: a build, sign or post failure at any order `k` is
fatal to the whole process — the run does not return success and no
order after `k` is ever built. -/
theorem per_order_failure_aborts_run (a : Args) (o : Oracle) (t k : Nat)
    (hauth : o.authOk = true) (htok : parseTokenId a.token_id = some t)
    (htick : o.tickOk = true) (hneg : o.negOk = true) (hfee : o.feeOk = true)
    (hk1 : 1 ≤ k) (hkn : k ≤ a.iterations) (hfail : iterOk o k = false) :
    (runMain a o).2 ≠ Except.ok () ∧
    ∀ j, k < j → Event.orderBuilt j ∉ (runMain a o).1 := by
  have hfst := runMain_ok_fst a o t hauth htok htick hneg hfee
  have hsnd := runMain_ok_snd a o t hauth htok htick hneg hfee
  constructor
  · intro hok
    rw [hsnd] at hok
    have hk := (runFrom_ok_iff o a.iterations a.iterations 1).mp hok k hk1 (by omega)
    rw [hfail] at hk
    cases hk
  · intro j hj hmem
    rw [hfst] at hmem
    simp only [List.mem_cons] at hmem
    rcases hmem with h | h | h | h | h
    · exact Event.noConfusion h
    · exact Event.noConfusion h
    · exact Event.noConfusion h
    · exact Event.noConfusion h
    · obtain ⟨h1, h2, h3⟩ := runFrom_orderBuilt_mem o a.iterations a.iterations 1 j h
      have hk := h3 k hk1 hj
      rw [hfail] at hk
      cases hk

/-- Witness for C1 amended at the failing-post oracle: the run of
three iterations does not return success and order 2 is never
built. -/
theorem per_order_failure_aborts_run_witness :
    (runMain ⟨"1", 1/2, 10, "BUY", 3⟩ failPost1).2 ≠ Except.ok () ∧
    Event.orderBuilt 2 ∉ (runMain ⟨"1", 1/2, 10, "BUY", 3⟩ failPost1).1 :=
  ⟨(per_order_failure_aborts_run ⟨"1", 1/2, 10, "BUY", 3⟩ failPost1 1 1 rfl (by decide)
      rfl rfl rfl (by decide) (by decide) (by decide)).1,
   (per_order_failure_aborts_run ⟨"1", 1/2, 10, "BUY", 3⟩ failPost1 1 1 rfl (by decide)
      rfl rfl rfl (by decide) (by decide) (by decide)).2 2 (by decide)⟩

/-- C2: the warm-up issues all three per-instrument lookups and awaits
them jointly (all three fetch events occur even when one fails); any
failure aborts the run with a metadata error before the submission
loop, so no order is ever built. -/
theorem warmup_joint_fail_fast (a : Args) (o : Oracle) (t : Nat)
    (hauth : o.authOk = true) (htok : parseTokenId a.token_id = some t)
    (hfail : o.tickOk = false ∨ o.negOk = false ∨ o.feeOk = false) :
    (runMain a o).1 =
      [Event.authenticate, Event.tickSizeFetch, Event.negRiskFetch, Event.feeRateFetch] ∧
    (runMain a o).2 = Except.error Err.metadataFetch ∧
    ∀ i, Event.orderBuilt i ∉ (runMain a o).1 := by
  unfold runMain
  rw [htok]
  simp [hauth, hfail]

/-- Witness for C2: tick-size lookup failing for a concrete run. -/
theorem warmup_joint_fail_fast_witness :
    (runMain ⟨"1", 1/2, 10, "BUY", 3⟩ tickFail).1 =
      [Event.authenticate, Event.tickSizeFetch, Event.negRiskFetch, Event.feeRateFetch] ∧
    (runMain ⟨"1", 1/2, 10, "BUY", 3⟩ tickFail).2 = Except.error Err.metadataFetch ∧
    ∀ i, Event.orderBuilt i ∉ (runMain ⟨"1", 1/2, 10, "BUY", 3⟩ tickFail).1 :=
  warmup_joint_fail_fast ⟨"1", 1/2, 10, "BUY", 3⟩ tickFail 1 rfl (by decide) (Or.inl rfl)

/-- C6 is refuted: with a malformed token id the run is indeed
rejected at the token-id parse, but the `authenticate` network round
trip has already happened — the trace of the failed run consists of
exactly that one network event. -/
theorem network_before_token_parse_counterexample :
    (runMain ⟨"abc", 1/2, 10, "BUY", 3⟩ allOk).2 = Except.error Err.tokenParse ∧
    (runMain ⟨"abc", 1/2, 10, "BUY", 3⟩ allOk).1 = [Event.authenticate] ∧
    Event.isNetwork Event.authenticate = true := by
  decide

/-- C6 amended: the token id is parsed from a decimal string into an
unsigned integer of at most 2^256 (so at least 256 bits of width), and
a malformed token id aborts the run before the warm-up and submission
network activity — but after the single authentication round trip,
which is the only event of such a run. -/
theorem token_id_parse_spec (a : Args) (o : Oracle)
    (hauth : o.authOk = true) (hbad : parseTokenId a.token_id = none) :
    ((runMain a o).1 = [Event.authenticate] ∧
      (runMain a o).2 = Except.error Err.tokenParse) ∧
    ∀ s n, parseTokenId s = some n → n < 2 ^ 256 := by
  constructor
  · unfold runMain
    rw [hbad]
    simp [hauth]
  · intro s n h
    unfold parseTokenId at h
    cases hp : parseDecimal s.data with
    | none =>
      rw [hp] at h
      exact Option.noConfusion h
    | some m =>
      rw [hp] at h
      have h2 : (if m < 2 ^ 256 then some m else none) = some n := h
      by_cases hm : m < 2 ^ 256
      · rw [if_pos hm] at h2
        exact Option.some.inj h2 ▸ hm
      · rw [if_neg hm] at h2
        exact Option.noConfusion h2

/-- Witness for C6 amended at the malformed token id "abc", together
with a width check on the well-formed id "123456". -/
theorem token_id_parse_spec_witness :
    (runMain ⟨"abc", 1/2, 10, "BUY", 3⟩ allOk).1 = [Event.authenticate] ∧
    (runMain ⟨"abc", 1/2, 10, "BUY", 3⟩ allOk).2 = Except.error Err.tokenParse ∧
    (123456 : Nat) < 2 ^ 256 :=
  ⟨(token_id_parse_spec ⟨"abc", 1/2, 10, "BUY", 3⟩ allOk rfl (by decide)).1.1,
   (token_id_parse_spec ⟨"abc", 1/2, 10, "BUY", 3⟩ allOk rfl (by decide)).1.2,
   (token_id_parse_spec ⟨"abc", 1/2, 10, "BUY", 3⟩ allOk rfl (by decide)).2
     "123456" 123456 (by decide)⟩

/-- C7 is refuted on its "configurable delay" part: two runs with
every process input different (token id, price, size, side, iteration
count) both sleep exactly 1000 ms between consecutive orders — the
inter-order delay is a fixed constant of the program, not a process
input. -/
theorem fixed_delay_counterexample :
    sleepsOf (runMain ⟨"7", 1/4, 5, "SELL", 2⟩ allOk).1 = [Event.sleep 1000] ∧
    sleepsOf (runMain ⟨"123456", 9/10, 200, "BUY", 3⟩ allOk).1 =
      [Event.sleep 1000, Event.sleep 1000] := by
  decide

/-- C7 amended: the submission loop is strictly sequential — each
order is fully built, signed and posted before the next begins — and a
fixed 1000 ms sleep (hard-coded, not a process input) separates
consecutive orders, with no sleep after the last. -/
theorem loop_sequential_fixed_delay (a : Args) (o : Oracle) (t : Nat)
    (hauth : o.authOk = true) (htok : parseTokenId a.token_id = some t)
    (htick : o.tickOk = true) (hneg : o.negOk = true) (hfee : o.feeOk = true)
    (hloop : ∀ m, iterOk o m = true) :
    (runMain a o).1 =
      Event.authenticate :: Event.tickSizeFetch :: Event.negRiskFetch :: Event.feeRateFetch ::
        seqTrace a.iterations ∧
    (runMain a o).2 = Except.ok () := by
  have hfst := runMain_ok_fst a o t hauth htok htick hneg hfee
  have hsnd := runMain_ok_snd a o t hauth htok htick hneg hfee
  have hrun := runFrom_all_ok_trace o a.iterations hloop a.iterations 1
  constructor
  · rw [hfst, hrun]
    rfl
  · rw [hsnd, hrun]

/-- Witness for C7 amended at a concrete two-iteration run. -/
theorem loop_sequential_fixed_delay_witness :
    (runMain ⟨"7", 1/4, 5, "SELL", 2⟩ allOk).1 =
      Event.authenticate :: Event.tickSizeFetch :: Event.negRiskFetch :: Event.feeRateFetch ::
        seqTrace 2 ∧
    (runMain ⟨"7", 1/4, 5, "SELL", 2⟩ allOk).2 = Except.ok () :=
  loop_sequential_fixed_delay ⟨"7", 1/4, 5, "SELL", 2⟩ allOk 7 rfl (by decide)
    rfl rfl rfl (fun _ => rfl)

/-- C8: every run performs the credential handshake exactly once, as
its very first event, and never re-authenticates — neither the warm-up
nor any of the order submissions produces a second `authenticate`
event. -/
theorem single_authentication (a : Args) (o : Oracle) :
    ∃ rest, (runMain a o).1 = Event.authenticate :: rest ∧ Event.authenticate ∉ rest := by
  unfold runMain
  cases hauth : o.authOk with
  | false =>
    refine ⟨[], ?_, by simp⟩
    simp [hauth]
  | true =>
    cases htok : parseTokenId a.token_id with
    | none =>
      refine ⟨[], ?_, by simp⟩
      simp [hauth]
    | some t =>
      by_cases hw : o.tickOk = false ∨ o.negOk = false ∨ o.feeOk = false
      · refine ⟨[Event.tickSizeFetch, Event.negRiskFetch, Event.feeRateFetch], ?_, by simp⟩
        simp [hauth, hw]
      · refine ⟨Event.tickSizeFetch :: Event.negRiskFetch :: Event.feeRateFetch ::
          (runFrom o a.iterations 1 a.iterations).1, ?_, ?_⟩
        · simp [hauth, hw]
        · intro hmem
          simp only [List.mem_cons] at hmem
          rcases hmem with h | h | h | h
          · exact Event.noConfusion h
          · exact Event.noConfusion h
          · exact Event.noConfusion h
          · exact runFrom_no_auth o a.iterations a.iterations 1 h

/-- C10: with iteration count 0 the loop body never runs — no order is
built, signed or posted — the statistics block is skipped (its guard
is false and the warm-up exclusion is 0), yet authentication and the
metadata warm-up still happen and the run returns success. -/
theorem zero_iterations_run (a : Args) (o : Oracle) (t : Nat)
    (hiter : a.iterations = 0)
    (hauth : o.authOk = true) (htok : parseTokenId a.token_id = some t)
    (htick : o.tickOk = true) (hneg : o.negOk = true) (hfee : o.feeOk = true) :
    (runMain a o).1 =
      [Event.authenticate, Event.tickSizeFetch, Event.negRiskFetch, Event.feeRateFetch] ∧
    (runMain a o).2 = Except.ok () ∧
    (∀ i, Event.orderBuilt i ∉ (runMain a o).1 ∧ Event.orderSigned i ∉ (runMain a o).1 ∧
      Event.orderPosted i ∉ (runMain a o).1) ∧
    statsShown 0 = false ∧ skipFirst 0 = 0 := by
  have hfst := runMain_ok_fst a o t hauth htok htick hneg hfee
  have hsnd := runMain_ok_snd a o t hauth htok htick hneg hfee
  rw [hiter] at hfst hsnd
  simp only [runFrom] at hfst hsnd
  refine ⟨hfst, hsnd, ?_, rfl, rfl⟩
  intro i
  rw [hfst]
  refine ⟨?_, ?_, ?_⟩ <;> simp

/-- Witness for C10 at a concrete zero-iteration run. -/
theorem zero_iterations_run_witness :
    (runMain ⟨"1", 1/2, 10, "BUY", 0⟩ allOk).1 =
      [Event.authenticate, Event.tickSizeFetch, Event.negRiskFetch, Event.feeRateFetch] ∧
    (runMain ⟨"1", 1/2, 10, "BUY", 0⟩ allOk).2 = Except.ok () ∧
    (∀ i, Event.orderBuilt i ∉ (runMain ⟨"1", 1/2, 10, "BUY", 0⟩ allOk).1 ∧
      Event.orderSigned i ∉ (runMain ⟨"1", 1/2, 10, "BUY", 0⟩ allOk).1 ∧
      Event.orderPosted i ∉ (runMain ⟨"1", 1/2, 10, "BUY", 0⟩ allOk).1) ∧
    statsShown 0 = false ∧ skipFirst 0 = 0 :=
  zero_iterations_run ⟨"1", 1/2, 10, "BUY", 0⟩ allOk 1 rfl rfl (by decide) rfl rfl rfl

end PolymarketLatency
